import Mathlib

/-!
Verification of the core logic of the family finance-tracking app:
the Dashboard period filter and aggregations (summary totals, category
grouping, responsible-party grouping), the RecordsList search/attribute
filter with its final descending sort, and the optimistic local deletion
performed by the records hook.

The embedding is shallow: JavaScript `Date` values are modelled by their
observations used in the code (`getMonth`, `getFullYear`, `getTime`),
amounts by rationals, and plain JavaScript objects used as accumulators
by insertion-ordered association lists, which is how string-keyed
objects enumerate in `Object.values`.
-/

namespace FinApp

/-- The two record kinds, `tipo: 'gasto' | 'receita'`. -/
inductive Tipo where
  | gasto
  | receita
deriving DecidableEq, Repr

/-- The string form of a kind, as it is stored and compared in the code. -/
def tipoStr : Tipo → String
  | Tipo.gasto => "gasto"
  | Tipo.receita => "receita"

/-- A JavaScript `Date`, modelled by the three observations the code makes
of it: `getFullYear`, `getMonth` (0-based, January = 0) and `getTime`
(epoch milliseconds). -/
structure DateTime where
  year : Int
  month : Int
  time : Int
deriving DecidableEq, Repr

/-- The `FinanceRecord` interface.  `descricao` is optional at runtime
(the list view guards it with `record.descricao?.`), hence `Option`. -/
structure FinanceRecord where
  id : Int
  data_hora : DateTime
  responsavel : String
  categoria : String
  tipo : Tipo
  valor : ℚ
  descricao : Option String
  criado_em : DateTime
deriving DecidableEq, Repr

/-- The period predicate of the Dashboard `filteredRecords` memo: a
`switch` on the selected period string, defaulting to keeping the
record. -/
def periodPred (now : DateTime) (selectedPeriod : String) (r : FinanceRecord) : Bool :=
  if selectedPeriod = "current-month" then
    decide (r.data_hora.month = now.month ∧ r.data_hora.year = now.year)
  else if selectedPeriod = "last-month" then
    let lastMonth : Int := if now.month = 0 then 11 else now.month - 1
    let lastMonthYear : Int := if now.month = 0 then now.year - 1 else now.year
    decide (r.data_hora.month = lastMonth ∧ r.data_hora.year = lastMonthYear)
  else if selectedPeriod = "current-year" then
    decide (r.data_hora.year = now.year)
  else
    true

/-- Dashboard `filteredRecords`: `records.filter` with the period
predicate evaluated against the wall clock `now`. -/
def dashboardFilteredRecords (now : DateTime) (selectedPeriod : String)
    (records : List FinanceRecord) : List FinanceRecord :=
  records.filter (periodPred now selectedPeriod)

/-- The Dashboard summary object `{ receitas, gastos, saldo }`. -/
structure Summary where
  receitas : ℚ
  gastos : ℚ
  saldo : ℚ
deriving DecidableEq, Repr

/-- Dashboard `summary` memo: filter by kind, `reduce` the amounts from
0, and set `saldo = receitas - gastos`. -/
def summary (filteredRecords : List FinanceRecord) : Summary :=
  let receitas :=
    (filteredRecords.filter (fun r => decide (r.tipo = Tipo.receita))).foldl
      (fun sum r => sum + r.valor) 0
  let gastos :=
    (filteredRecords.filter (fun r => decide (r.tipo = Tipo.gasto))).foldl
      (fun sum r => sum + r.valor) 0
  { receitas := receitas, gastos := gastos, saldo := receitas - gastos }

/-- One entry of the Dashboard `categoryTotals` object. -/
structure CatGroup where
  name : String
  value : ℚ
  tipo : Tipo
deriving DecidableEq, Repr

/-- The object key used by `categoryTotals`: `` `${categoria}_${tipo}` ``. -/
def catKey (r : FinanceRecord) : String :=
  r.categoria ++ "_" ++ tipoStr r.tipo

/-- One step of a JavaScript `reduce` that accumulates records into a
string-keyed object: create a fresh entry (at the end, preserving the
object's insertion order) when the key is absent, then update the entry
at the key.  The object is an insertion-ordered association list. -/
def jsUpsert {G : Type} (kf : FinanceRecord → String) (mk : FinanceRecord → G)
    (add : FinanceRecord → G → G) (acc : List (String × G)) (r : FinanceRecord) :
    List (String × G) :=
  (if acc.any (fun p => decide (p.1 = kf r)) then acc else acc ++ [(kf r, mk r)]).map
    (fun p => if p.1 = kf r then (p.1, add r p.2) else p)

/-- The `categoryTotals` step: key `catKey`, fresh entry
`{ name: categoria, value: 0, tipo }`, update `value += valor`. -/
def upsertCat (acc : List (String × CatGroup)) (r : FinanceRecord) : List (String × CatGroup) :=
  jsUpsert catKey (fun r => { name := r.categoria, value := 0, tipo := r.tipo })
    (fun r g => { g with value := g.value + r.valor }) acc r

/-- Dashboard `categoryTotals`: the `reduce` over the filtered records
starting from the empty object. -/
def categoryTotals (filteredRecords : List FinanceRecord) : List (String × CatGroup) :=
  filteredRecords.foldl upsertCat []

/-- Stable insertion into a list: `a` is placed before the first element
`b` the comparator does not require to stay in front of it. -/
def sInsert {α : Type} (keep : α → α → Bool) (a : α) : List α → List α
  | [] => [a]
  | b :: bs => if keep b a then b :: sInsert keep a bs else a :: b :: bs

/-- Stable insertion sort (the semantics of `Array.prototype.sort`,
which ES2019 requires to be stable). -/
def sSort {α : Type} (keep : α → α → Bool) : List α → List α
  | [] => []
  | a :: as => sInsert keep a (sSort keep as)

/-- Stable sort in descending key order: the semantics of
`.sort((a, b) => key(b) - key(a))`. -/
def sSortKey {α β : Type} [LinearOrder β] (key : α → β) (l : List α) : List α :=
  sSort (fun b a => decide (key a < key b)) l

/-- Dashboard `categoryData`: `Object.values(categoryTotals)` sorted by
`(a, b) => b.value - a.value`. -/
def categoryData (filteredRecords : List FinanceRecord) : List CatGroup :=
  sSortKey (fun g => g.value) ((categoryTotals filteredRecords).map Prod.snd)

/-- One entry of the Dashboard `responsibleTotals` object. -/
structure RespGroup where
  name : String
  receitas : ℚ
  gastos : ℚ
deriving DecidableEq, Repr

/-- The `responsibleTotals` step: key `responsavel`, fresh entry
`{ name, receitas: 0, gastos: 0 }`, then add `valor` to `receitas` or
`gastos` according to the kind. -/
def upsertResp (acc : List (String × RespGroup)) (r : FinanceRecord) : List (String × RespGroup) :=
  jsUpsert (fun r => r.responsavel) (fun r => { name := r.responsavel, receitas := 0, gastos := 0 })
    (fun r g =>
      if r.tipo = Tipo.receita then { g with receitas := g.receitas + r.valor }
      else { g with gastos := g.gastos + r.valor }) acc r

/-- Dashboard `responsibleTotals`: the `reduce` over the filtered
records starting from the empty object. -/
def responsibleTotals (filteredRecords : List FinanceRecord) : List (String × RespGroup) :=
  filteredRecords.foldl upsertResp []

/-- Dashboard `responsibleData`: `Object.values(responsibleTotals)`,
not sorted. -/
def responsibleData (filteredRecords : List FinanceRecord) : List RespGroup :=
  (responsibleTotals filteredRecords).map Prod.snd

/-- Character-list version of `String.startsWith` used to define
substring search. -/
def leadsWith : List Char → List Char → Bool
  | [], _ => true
  | _ :: _, [] => false
  | a :: as, b :: bs => a == b && leadsWith as bs

/-- `hay.includes(needle)` on character lists: the needle occurs as a
contiguous run of the hay. -/
def hasSub (needle : List Char) : List Char → Bool
  | [] => leadsWith needle []
  | h :: t => leadsWith needle (h :: t) || hasSub needle t

/-- `s.toLowerCase()`. -/
def lowerStr (s : String) : String := String.mk (s.data.map Char.toLower)

/-- `hay.toLowerCase().includes(q.toLowerCase())`. -/
def ciIncludes (hay q : String) : Bool :=
  hasSub (lowerStr q).data (lowerStr hay).data

/-- A calendar day chosen in a date input, modelled by the epoch
milliseconds of its start; `new Date(dateFrom)` evaluates to that
instant and `new Date(dateTo + 'T23:59:59')` to `dayStart + 86399000`. -/
structure CalDay where
  dayStart : Int
deriving DecidableEq, Repr

/-- The end of a day: 23:59:59 after its start. -/
def dayEnd (d : CalDay) : Int := d.dayStart + 86399000

/-- The six filter criteria of the RecordsList view.  The empty date
strings (`!dateFrom` falsy) are modelled by `none`. -/
structure Criteria where
  searchTerm : String
  filterType : String
  filterResponsible : String
  filterCategory : String
  dateFrom : Option CalDay
  dateTo : Option CalDay
deriving DecidableEq, Repr

/-- `matchesSearch`: empty query, or the query occurs case-insensitively
in the (optional) description, the responsible party, or the category. -/
def matchesSearch (searchTerm : String) (r : FinanceRecord) : Bool :=
  decide (searchTerm = "") ||
    (match r.descricao with
      | some d => ciIncludes d searchTerm
      | none => false) ||
    ciIncludes r.responsavel searchTerm ||
    ciIncludes r.categoria searchTerm

/-- `matchesType`: sentinel `"all"` or exact match of the kind string. -/
def matchesType (filterType : String) (r : FinanceRecord) : Bool :=
  decide (filterType = "all") || decide (tipoStr r.tipo = filterType)

/-- `matchesResponsible`: sentinel `"all"` or exact match. -/
def matchesResponsible (filterResponsible : String) (r : FinanceRecord) : Bool :=
  decide (filterResponsible = "all") || decide (r.responsavel = filterResponsible)

/-- `matchesCategory`: sentinel `"all"` or exact match. -/
def matchesCategory (filterCategory : String) (r : FinanceRecord) : Bool :=
  decide (filterCategory = "all") || decide (r.categoria = filterCategory)

/-- `matchesDateFrom`: `!dateFrom || recordDate >= new Date(dateFrom)`. -/
def matchesDateFrom (dateFrom : Option CalDay) (r : FinanceRecord) : Bool :=
  match dateFrom with
  | none => true
  | some d => decide (d.dayStart ≤ r.data_hora.time)

/-- `matchesDateTo`: `!dateTo || recordDate <= new Date(dateTo + 'T23:59:59')`. -/
def matchesDateTo (dateTo : Option CalDay) (r : FinanceRecord) : Bool :=
  match dateTo with
  | none => true
  | some d => decide (r.data_hora.time ≤ dayEnd d)

/-- The conjunction of the six criteria, as in the RecordsList filter
callback. -/
def searchPred (c : Criteria) (r : FinanceRecord) : Bool :=
  matchesSearch c.searchTerm r && matchesType c.filterType r &&
    matchesResponsible c.filterResponsible r && matchesCategory c.filterCategory r &&
    matchesDateFrom c.dateFrom r && matchesDateTo c.dateTo r

/-- RecordsList `filteredRecords`: filter by all six criteria, then sort
by `(a, b) => getTime(b.data_hora) - getTime(a.data_hora)`. -/
def recordsListFiltered (c : Criteria) (records : List FinanceRecord) : List FinanceRecord :=
  sSortKey (fun r => r.data_hora.time) (records.filter (searchPred c))

/-- Outcome of the collaborator's `delete` call. -/
inductive RemoteResult where
  | ok
  | err
deriving DecidableEq, Repr

/-- The hook's `deleteRecord`: on a collaborator error the exception is
rethrown before any state update, so the local records are unchanged and
the call reports failure; on success the record with the given id is
optimistically removed (`prev.filter(r => r.id !== id)`). -/
def deleteRecord (res : RemoteResult) (id : Int) (records : List FinanceRecord) :
    List FinanceRecord × Bool :=
  match res with
  | RemoteResult.err => (records, false)
  | RemoteResult.ok => (records.filter (fun r => decide (¬ r.id = id)), true)

/-- One step of insertion-ordered key accumulation: append the key if it
is new. -/
def insStep (ks : List String) (k : String) : List String :=
  if k ∈ ks then ks else ks ++ [k]

/-- First-occurrence deduplication preserving encounter order: the key
enumeration order of a JavaScript object built by repeated insertion. -/
def insDedup (l : List String) : List String := l.foldl insStep []

/-- Sum of the amounts of a record collection. -/
def sumValor (l : List FinanceRecord) : ℚ := (l.map (fun r => r.valor)).sum

/-- Sum of the income amounts of a given responsible party. -/
def sumReceitasOf (k : String) (l : List FinanceRecord) : ℚ :=
  sumValor (l.filter (fun r => decide (r.responsavel = k ∧ r.tipo = Tipo.receita)))

/-- Sum of the expense amounts of a given responsible party. -/
def sumGastosOf (k : String) (l : List FinanceRecord) : ℚ :=
  sumValor (l.filter (fun r => decide (r.responsavel = k ∧ r.tipo = Tipo.gasto)))

/-! ### Properties of the stable insertion sort -/

theorem sInsert_perm {α : Type} (keep : α → α → Bool) (a : α) (l : List α) :
    (sInsert keep a l).Perm (a :: l) := by
  induction l with
  | nil => exact List.Perm.refl _
  | cons b bs ih =>
    rw [sInsert]
    split
    · exact (ih.cons b).trans (List.Perm.swap a b bs)
    · exact List.Perm.refl _

theorem sSort_perm {α : Type} (keep : α → α → Bool) (l : List α) :
    (sSort keep l).Perm l := by
  induction l with
  | nil => exact List.Perm.refl _
  | cons a as ih =>
    rw [sSort]
    exact (sInsert_perm keep a (sSort keep as)).trans (ih.cons a)

theorem sInsert_pairwise {α β : Type} [LinearOrder β] (key : α → β) (a : α) (l : List α)
    (h : l.Pairwise (fun x y => key y ≤ key x)) :
    (sInsert (fun b a => decide (key a < key b)) a l).Pairwise (fun x y => key y ≤ key x) := by
  induction l with
  | nil => simp [sInsert]
  | cons b bs ih =>
    rw [sInsert]
    rcases List.pairwise_cons.mp h with ⟨hb, hbs⟩
    split
    case isTrue hk =>
      refine List.pairwise_cons.mpr ⟨?_, ih hbs⟩
      intro x hx
      rcases List.mem_cons.mp ((sInsert_perm _ a bs).mem_iff.mp hx) with rfl | hxl
      · exact le_of_lt (of_decide_eq_true hk)
      · exact hb x hxl
    case isFalse hk =>
      refine List.pairwise_cons.mpr ⟨?_, h⟩
      intro x hx
      have hba : key b ≤ key a := le_of_not_lt (fun hlt => hk (decide_eq_true hlt))
      rcases List.mem_cons.mp hx with rfl | hxbs
      · exact hba
      · exact le_trans (hb x hxbs) hba

theorem sSort_pairwise {α β : Type} [LinearOrder β] (key : α → β) (l : List α) :
    (sSortKey key l).Pairwise (fun x y => key y ≤ key x) := by
  induction l with
  | nil => simp [sSortKey, sSort]
  | cons a as ih =>
    rw [sSortKey, sSort]
    exact sInsert_pairwise key a _ ih

theorem sInsert_filter_key {α β : Type} [LinearOrder β] (key : α → β) (t : β) (a : α)
    (l : List α) :
    (sInsert (fun b a => decide (key a < key b)) a l).filter (fun x => decide (key x = t)) =
      if key a = t then a :: l.filter (fun x => decide (key x = t))
      else l.filter (fun x => decide (key x = t)) := by
  induction l with
  | nil =>
    rw [sInsert]
    by_cases hat : key a = t <;> simp [hat]
  | cons b bs ih =>
    rw [sInsert]
    split
    case isTrue hk =>
      have hk' : key a < key b := of_decide_eq_true hk
      by_cases hbt : key b = t
      · have hat : ¬ key a = t := by
          intro he
          exact absurd (he ▸ hk') (by simp [hbt])
        simp [List.filter_cons, hbt, ih, hat]
      · simp [List.filter_cons, hbt, ih]
    case isFalse hk =>
      by_cases hat : key a = t <;> simp [List.filter_cons, hat]

theorem sSort_filter_key {α β : Type} [LinearOrder β] (key : α → β) (t : β) (l : List α) :
    (sSortKey key l).filter (fun x => decide (key x = t)) =
      l.filter (fun x => decide (key x = t)) := by
  induction l with
  | nil => rfl
  | cons a as ih =>
    rw [sSortKey, sSort]
    rw [show sSort (fun b a => decide (key a < key b)) as = sSortKey key as from rfl]
    rw [sInsert_filter_key key t a (sSortKey key as), ih, List.filter_cons]
    by_cases hat : key a = t <;> simp [hat]

/-! ### Properties of the object-accumulation step -/

/-- Lookup of the entry stored at a key of the accumulated object. -/
def getG {G : Type} (k : String) (acc : List (String × G)) : Option G :=
  (acc.find? (fun p => decide (p.1 = k))).map Prod.snd

/-- Sum of a measure of the entries of the accumulated object. -/
def sumM {G : Type} (m : G → ℚ) (acc : List (String × G)) : ℚ :=
  (acc.map (fun p => m p.2)).sum

theorem any_key_eq_true {G : Type} (acc : List (String × G)) (key : String) :
    (acc.any (fun p => decide (p.1 = key)) = true) ↔ key ∈ acc.map Prod.fst := by
  simp [List.any_eq_true, List.mem_map]

theorem map_upd_of_not_mem {G : Type} (add2 : G → G) (key : String)
    (acc : List (String × G)) (h : key ∉ acc.map Prod.fst) :
    acc.map (fun p => if p.1 = key then (p.1, add2 p.2) else p) = acc := by
  induction acc with
  | nil => rfl
  | cons q qs ih =>
    have h1 : ¬ q.1 = key := fun he => h (by simp [he])
    have h2 : key ∉ qs.map Prod.fst := fun hm => h (by simp [hm])
    simp [h1, ih h2]

theorem find?_key_eq_of_nodup {G : Type} (acc : List (String × G)) (p : String × G)
    (hnd : (acc.map Prod.fst).Nodup) (hp : p ∈ acc) :
    acc.find? (fun q => decide (q.1 = p.1)) = some p := by
  induction acc with
  | nil => cases hp
  | cons q qs ih =>
    have hnd' : q.1 ∉ qs.map Prod.fst ∧ (qs.map Prod.fst).Nodup :=
      List.nodup_cons.mp (by simpa using hnd)
    rcases List.mem_cons.mp hp with rfl | hmem
    · exact List.find?_cons_of_pos _ (by simp)
    · have hne : ¬ q.1 = p.1 := fun he => hnd'.1 (he ▸ List.mem_map.mpr ⟨p, hmem, rfl⟩)
      rw [List.find?_cons_of_neg _ (by simpa using hne)]
      exact ih hnd'.2 hmem

theorem getG_eq_of_mem_nodup {G : Type} (acc : List (String × G)) (p : String × G)
    (hnd : (acc.map Prod.fst).Nodup) (hp : p ∈ acc) : getG p.1 acc = some p.2 := by
  rw [getG, find?_key_eq_of_nodup acc p hnd hp, Option.map_some']

theorem getG_isSome_of_mem {G : Type} (acc : List (String × G)) (key : String)
    (h : key ∈ acc.map Prod.fst) : ∃ g, getG key acc = some g := by
  rcases List.mem_map.mp h with ⟨p, hp, he⟩
  have hsome : (acc.find? (fun p => decide (p.1 = key))).isSome = true :=
    List.find?_isSome.mpr ⟨p, hp, by simp [he]⟩
  rcases Option.isSome_iff_exists.mp hsome with ⟨q, hq⟩
  exact ⟨q.2, by rw [getG, hq, Option.map_some']⟩

theorem find?_fst_map {G : Type} (f : String × G → String × G)
    (hf : ∀ p, (f p).1 = p.1) (k : String) (acc : List (String × G)) :
    (acc.map f).find? (fun p => decide (p.1 = k)) =
      (acc.find? (fun p => decide (p.1 = k))).map f := by
  induction acc with
  | nil => rfl
  | cons q qs ih =>
    by_cases hq : q.1 = k
    · rw [List.map_cons, List.find?_cons_of_pos _ (by simp [hf, hq]),
        List.find?_cons_of_pos _ (by simp [hq]), Option.map_some']
    · rw [List.map_cons, List.find?_cons_of_neg _ (by simp [hf, hq]),
        List.find?_cons_of_neg _ (by simp [hq]), ih]

theorem getG_map_upd {G : Type} (add2 : G → G) (key k : String) (acc : List (String × G)) :
    getG k (acc.map (fun p => if p.1 = key then (p.1, add2 p.2) else p)) =
      if k = key then (getG key acc).map add2 else getG k acc := by
  have hf : ∀ p : String × G, (if p.1 = key then (p.1, add2 p.2) else p).1 = p.1 := by
    intro p
    by_cases h : p.1 = key <;> simp [h]
  rw [getG, find?_fst_map _ hf k acc]
  by_cases hk : k = key
  · subst hk
    rw [getG]
    cases hfind : acc.find? (fun p => decide (p.1 = k)) with
    | none => simp
    | some p =>
      have hp1 : p.1 = k := by
        have hps := List.find?_some hfind
        simpa using hps
      simp [hp1]
  · rw [if_neg hk, getG]
    cases hfind : acc.find? (fun p => decide (p.1 = k)) with
    | none => simp
    | some p =>
      have hp1 : p.1 = k := by
        have hps := List.find?_some hfind
        simpa using hps
      have hpk : ¬ p.1 = key := fun he => hk (hp1 ▸ he)
      simp [hpk]

section UpsertLemmas

variable {G : Type} (kf : FinanceRecord → String) (mk : FinanceRecord → G)
  (add : FinanceRecord → G → G)

theorem keys_jsUpsert (acc : List (String × G)) (r : FinanceRecord) :
    (jsUpsert kf mk add acc r).map Prod.fst = insStep (acc.map Prod.fst) (kf r) := by
  by_cases h : kf r ∈ acc.map Prod.fst
  · rw [jsUpsert, if_pos ((any_key_eq_true acc (kf r)).mpr h), insStep, if_pos h, List.map_map]
    apply List.map_congr_left
    intro p _
    by_cases hh : p.1 = kf r <;> simp [hh]
  · rw [jsUpsert, if_neg (fun hc => h ((any_key_eq_true acc (kf r)).mp hc)), insStep, if_neg h]
    simp only [List.map_append, List.map_map]
    congr 1
    · apply List.map_congr_left
      intro p _
      by_cases hh : p.1 = kf r <;> simp [hh]
    · simp

theorem nodup_keys_jsUpsert (acc : List (String × G)) (r : FinanceRecord)
    (h : (acc.map Prod.fst).Nodup) : ((jsUpsert kf mk add acc r).map Prod.fst).Nodup := by
  rw [keys_jsUpsert, insStep]
  split
  · exact h
  case isFalse hmem =>
    rw [List.nodup_append]
    refine ⟨h, List.nodup_singleton _, fun x hx hxs => ?_⟩
    have hxk := List.mem_singleton.mp hxs
    subst hxk
    exact hmem hx

theorem getG_jsUpsert (acc : List (String × G)) (r : FinanceRecord) (k : String) :
    getG k (jsUpsert kf mk add acc r) =
      if k = kf r then some (add r ((getG (kf r) acc).getD (mk r))) else getG k acc := by
  by_cases h : kf r ∈ acc.map Prod.fst
  · rw [jsUpsert, if_pos ((any_key_eq_true acc (kf r)).mpr h), getG_map_upd (add r) (kf r) k acc]
    by_cases hk : k = kf r
    · rcases getG_isSome_of_mem acc (kf r) h with ⟨g, hg⟩
      simp [hk, hg]
    · simp [hk]
  · rw [jsUpsert, if_neg (fun hc => h ((any_key_eq_true acc (kf r)).mp hc)), List.map_append,
      map_upd_of_not_mem (add r) (kf r) acc h]
    have htail : ([(kf r, mk r)] : List (String × G)).map
        (fun p => if p.1 = kf r then (p.1, add r p.2) else p) = [(kf r, add r (mk r))] := by
      simp
    rw [htail]
    have hnone : acc.find? (fun p => decide (p.1 = kf r)) = none := by
      rw [List.find?_eq_none]
      intro x hx hxk
      exact h (of_decide_eq_true hxk ▸ List.mem_map.mpr ⟨x, hx, rfl⟩)
    by_cases hk : k = kf r
    · subst hk
      simp [getG, List.find?_append, hnone]
    · have hne2 : ¬ kf r = k := fun he => hk he.symm
      simp [getG, List.find?_append, hk, hne2]

end UpsertLemmas

/-- The per-key trace of the accumulation: what the object stores at key
`k` after processing the records in order. -/
def groupStep {G : Type} (kf : FinanceRecord → String) (mk : FinanceRecord → G)
    (add : FinanceRecord → G → G) (k : String) (og : Option G) (r : FinanceRecord) : Option G :=
  if kf r = k then some (add r (og.getD (mk r))) else og

section FoldLemmas

variable {G : Type} (kf : FinanceRecord → String) (mk : FinanceRecord → G)
  (add : FinanceRecord → G → G)

theorem getG_foldl (k : String) (l : List FinanceRecord) (acc : List (String × G)) :
    getG k (l.foldl (jsUpsert kf mk add) acc) = l.foldl (groupStep kf mk add k) (getG k acc) := by
  induction l generalizing acc with
  | nil => rfl
  | cons r l ih =>
    rw [List.foldl_cons, List.foldl_cons, ih, getG_jsUpsert]
    congr 1
    by_cases h : kf r = k
    · rw [groupStep, if_pos h, if_pos h.symm, h]
    · rw [groupStep, if_neg h, if_neg (fun he => h he.symm)]

theorem keys_foldl_jsUpsert (l : List FinanceRecord) (acc : List (String × G)) :
    (l.foldl (jsUpsert kf mk add) acc).map Prod.fst =
      (l.map kf).foldl insStep (acc.map Prod.fst) := by
  induction l generalizing acc with
  | nil => rfl
  | cons r l ih =>
    rw [List.foldl_cons, List.map_cons, List.foldl_cons, ih, keys_jsUpsert]

theorem nodup_keys_foldl (l : List FinanceRecord) (acc : List (String × G))
    (h : (acc.map Prod.fst).Nodup) :
    ((l.foldl (jsUpsert kf mk add) acc).map Prod.fst).Nodup := by
  induction l generalizing acc with
  | nil => exact h
  | cons r l ih =>
    rw [List.foldl_cons]
    exact ih _ (nodup_keys_jsUpsert kf mk add acc r h)

theorem sumM_map_upd (m : G → ℚ) (add2 : G → G) (v : ℚ)
    (hadd : ∀ g, m (add2 g) = m g + v) (key : String) (acc : List (String × G))
    (hnd : (acc.map Prod.fst).Nodup) (hmem : key ∈ acc.map Prod.fst) :
    sumM m (acc.map (fun p => if p.1 = key then (p.1, add2 p.2) else p)) = sumM m acc + v := by
  induction acc with
  | nil => exact absurd hmem (by simp)
  | cons q qs ih =>
    have hnd' : q.1 ∉ qs.map Prod.fst ∧ (qs.map Prod.fst).Nodup :=
      List.nodup_cons.mp (by simpa using hnd)
    by_cases hq : q.1 = key
    · have hqs : qs.map (fun p => if p.1 = key then (p.1, add2 p.2) else p) = qs :=
        map_upd_of_not_mem add2 key qs (hq ▸ hnd'.1)
      simp only [List.map_cons, if_pos hq, sumM, List.sum_cons, hqs]
      rw [hadd]
      ring
    · have hmem' : key ∈ qs.map Prod.fst := by
        rcases (by simpa using hmem : key = q.1 ∨ ∃ x, (key, x) ∈ qs) with he | ⟨x, hm⟩
        · exact absurd he.symm hq
        · exact List.mem_map.mpr ⟨(key, x), hm, rfl⟩
      have ihq := ih hnd'.2 hmem'
      simp only [List.map_cons, if_neg hq, sumM, List.sum_cons] at ihq ⊢
      rw [ihq]
      ring

theorem sumM_jsUpsert (m : G → ℚ)
    (hadd : ∀ (r : FinanceRecord) (g : G), m (add r g) = m g + r.valor)
    (hmk : ∀ r : FinanceRecord, m (mk r) = 0)
    (acc : List (String × G)) (r : FinanceRecord) (hnd : (acc.map Prod.fst).Nodup) :
    sumM m (jsUpsert kf mk add acc r) = sumM m acc + r.valor := by
  by_cases h : kf r ∈ acc.map Prod.fst
  · rw [jsUpsert, if_pos ((any_key_eq_true acc (kf r)).mpr h)]
    exact sumM_map_upd m (add r) r.valor (hadd r) (kf r) acc hnd h
  · rw [jsUpsert, if_neg (fun hc => h ((any_key_eq_true acc (kf r)).mp hc)), List.map_append,
      map_upd_of_not_mem (add r) (kf r) acc h]
    have htail : ([(kf r, mk r)] : List (String × G)).map
        (fun p => if p.1 = kf r then (p.1, add r p.2) else p) = [(kf r, add r (mk r))] := by
      simp
    rw [htail]
    simp only [sumM, List.map_append, List.sum_append, List.map_cons, List.map_nil,
      List.sum_cons, List.sum_nil]
    rw [hadd, hmk]
    ring

theorem sumM_foldl (m : G → ℚ)
    (hadd : ∀ (r : FinanceRecord) (g : G), m (add r g) = m g + r.valor)
    (hmk : ∀ r : FinanceRecord, m (mk r) = 0)
    (l : List FinanceRecord) (acc : List (String × G)) (hnd : (acc.map Prod.fst).Nodup) :
    sumM m (l.foldl (jsUpsert kf mk add) acc) = sumM m acc + sumValor l := by
  induction l generalizing acc with
  | nil => simp [sumValor]
  | cons r l ih =>
    rw [List.foldl_cons, ih _ (nodup_keys_jsUpsert kf mk add acc r hnd),
      sumM_jsUpsert kf mk add m hadd hmk acc r hnd]
    simp only [sumValor, List.map_cons, List.sum_cons]
    ring

end FoldLemmas

theorem nodup_insStep (acc : List String) (k : String) (h : acc.Nodup) : (insStep acc k).Nodup := by
  rw [insStep]
  split
  · exact h
  case isFalse hmem =>
    rw [List.nodup_append]
    refine ⟨h, List.nodup_singleton _, fun x hx hxs => ?_⟩
    have hxk := List.mem_singleton.mp hxs
    subst hxk
    exact hmem hx

theorem mem_insStep (acc : List String) (k x : String) (h : x ∈ insStep acc k) :
    x ∈ acc ∨ x = k := by
  rw [insStep] at h
  split at h
  · exact Or.inl h
  · rcases List.mem_append.mp h with hx | hx
    · exact Or.inl hx
    · exact Or.inr (List.mem_singleton.mp hx)

theorem nodup_foldl_insStep (ks acc : List String) (h : acc.Nodup) :
    (ks.foldl insStep acc).Nodup := by
  induction ks generalizing acc with
  | nil => exact h
  | cons k ks ih =>
    rw [List.foldl_cons]
    exact ih _ (nodup_insStep acc k h)

theorem mem_foldl_insStep (ks acc : List String) (x : String)
    (h : x ∈ ks.foldl insStep acc) : x ∈ acc ∨ x ∈ ks := by
  induction ks generalizing acc with
  | nil => exact Or.inl h
  | cons k ks ih =>
    rw [List.foldl_cons] at h
    rcases ih _ h with hx | hx
    · rcases mem_insStep acc k x hx with hx2 | hx2
      · exact Or.inl hx2
      · exact Or.inr (hx2 ▸ List.mem_cons_self k ks)
    · exact Or.inr (List.mem_cons_of_mem k hx)

/-! ### Characterizations of the search-filter criteria -/

theorem mem_recordsListFiltered (c : Criteria) (records : List FinanceRecord)
    (r : FinanceRecord) :
    r ∈ recordsListFiltered c records ↔ r ∈ records ∧ searchPred c r = true := by
  rw [recordsListFiltered, sSortKey]
  rw [(sSort_perm _ _).mem_iff, List.mem_filter]

theorem matchesSearch_eq_true_iff (q : String) (r : FinanceRecord) :
    matchesSearch q r = true ↔
      q = "" ∨ (∃ d, r.descricao = some d ∧ ciIncludes d q = true) ∨
        ciIncludes r.responsavel q = true ∨ ciIncludes r.categoria q = true := by
  rcases hd : r.descricao with _ | d <;>
    simp [matchesSearch, hd, Bool.or_eq_true, or_assoc]

theorem matchesType_eq_true_iff (ft : String) (r : FinanceRecord) :
    matchesType ft r = true ↔ ft = "all" ∨ tipoStr r.tipo = ft := by
  simp [matchesType, Bool.or_eq_true]

theorem matchesResponsible_eq_true_iff (fr : String) (r : FinanceRecord) :
    matchesResponsible fr r = true ↔ fr = "all" ∨ r.responsavel = fr := by
  simp [matchesResponsible, Bool.or_eq_true]

theorem matchesCategory_eq_true_iff (fc : String) (r : FinanceRecord) :
    matchesCategory fc r = true ↔ fc = "all" ∨ r.categoria = fc := by
  simp [matchesCategory, Bool.or_eq_true]

theorem matchesDateFrom_eq_true_iff (df : Option CalDay) (r : FinanceRecord) :
    matchesDateFrom df r = true ↔ ∀ d, df = some d → d.dayStart ≤ r.data_hora.time := by
  rcases df with _ | d <;> simp [matchesDateFrom]

theorem matchesDateTo_eq_true_iff (dt : Option CalDay) (r : FinanceRecord) :
    matchesDateTo dt r = true ↔ ∀ d, dt = some d → r.data_hora.time ≤ dayEnd d := by
  rcases dt with _ | d <;> simp [matchesDateTo]

theorem searchPred_eq_true_iff (c : Criteria) (r : FinanceRecord) :
    searchPred c r = true ↔
      matchesSearch c.searchTerm r = true ∧ matchesType c.filterType r = true ∧
        matchesResponsible c.filterResponsible r = true ∧
        matchesCategory c.filterCategory r = true ∧ matchesDateFrom c.dateFrom r = true ∧
        matchesDateTo c.dateTo r = true := by
  simp [searchPred, Bool.and_eq_true, and_assoc]

/-- Repeated addition of the amounts starting from an accumulator equals
the accumulator plus the total. -/
theorem foldl_add_valor (l : List FinanceRecord) (s : ℚ) :
    l.foldl (fun sum r => sum + r.valor) s = s + sumValor l := by
  induction l generalizing s with
  | nil => simp [sumValor]
  | cons r l ih =>
    rw [List.foldl_cons, ih]
    simp only [sumValor, List.map_cons, List.sum_cons]
    ring

/-! ### The claims -/

/-- **C1.** For every record collection and wall-clock date, a record is
returned by the Period Filter for `current-month` exactly when it is in
the input and its timestamp's month and year equal the current month and
year; hence every excluded record fails that predicate. -/
theorem currentMonthFilterCorrect (records : List FinanceRecord) (now : DateTime)
    (r : FinanceRecord) :
    r ∈ dashboardFilteredRecords now "current-month" records ↔
      r ∈ records ∧ r.data_hora.month = now.month ∧ r.data_hora.year = now.year := by
  rw [dashboardFilteredRecords, List.mem_filter, periodPred, if_pos rfl]
  simp

/-- **C1 witness.** A concrete June 2024 record passes the
`current-month` filter in June 2024. -/
theorem currentMonthFilterCorrect_check :
    let nowJun : DateTime := { year := 2024, month := 5, time := 1718000000000 }
    let recJun : FinanceRecord :=
      { id := 1, data_hora := { year := 2024, month := 5, time := 1718029800000 },
        responsavel := "Joao", categoria := "Alimentacao", tipo := Tipo.gasto,
        valor := 150, descricao := some "Compras no supermercado",
        criado_em := { year := 2024, month := 5, time := 1718029800000 } }
    recJun ∈ dashboardFilteredRecords nowJun "current-month" [recJun] :=
  (currentMonthFilterCorrect _ _ _).mpr ⟨List.mem_singleton.mpr rfl, rfl, rfl⟩

/-- **C2.** The summary totals satisfy `saldo = receitas − gastos`, the
income and expense totals are the sums of the amounts of the records of
each kind, and the empty collection yields all-zero totals. -/
theorem summaryTotalsCorrect (C : List FinanceRecord) :
    (summary C).saldo = (summary C).receitas - (summary C).gastos ∧
      (summary C).receitas = sumValor (C.filter (fun r => decide (r.tipo = Tipo.receita))) ∧
      (summary C).gastos = sumValor (C.filter (fun r => decide (r.tipo = Tipo.gasto))) ∧
      summary [] = { receitas := 0, gastos := 0, saldo := 0 } := by
  refine ⟨rfl, ?_, ?_, ?_⟩ <;>
    simp [summary, foldl_add_valor, Summary.mk.injEq]

/-- **C3.** A record is kept by the `last-month` filter exactly when its
timestamp lies in the month preceding the current one: in January
(`getMonth = 0`) the kept records are those of December (`getMonth = 11`)
of the previous year, otherwise those of the previous month of the same
year. -/
theorem lastMonthFilterCorrect (records : List FinanceRecord) (now : DateTime)
    (r : FinanceRecord) :
    (now.month = 0 →
      (r ∈ dashboardFilteredRecords now "last-month" records ↔
        r ∈ records ∧ r.data_hora.month + 1 = 12 ∧ r.data_hora.year = now.year - 1)) ∧
    (now.month ≠ 0 →
      (r ∈ dashboardFilteredRecords now "last-month" records ↔
        r ∈ records ∧ r.data_hora.month = now.month - 1 ∧ r.data_hora.year = now.year)) := by
  have hpred : periodPred now "last-month" r = true ↔
      (r.data_hora.month = (if now.month = 0 then 11 else now.month - 1) ∧
        r.data_hora.year = (if now.month = 0 then now.year - 1 else now.year)) := by
    rw [periodPred, if_neg (by decide), if_pos rfl]
    simp
  constructor
  · intro h0
    rw [dashboardFilteredRecords, List.mem_filter, hpred, if_pos h0, if_pos h0]
    constructor
    · rintro ⟨hm, h1, h2⟩
      exact ⟨hm, by omega, h2⟩
    · rintro ⟨hm, h1, h2⟩
      exact ⟨hm, by omega, h2⟩
  · intro h0
    rw [dashboardFilteredRecords, List.mem_filter, hpred, if_neg h0, if_neg h0]

/-- **C3 witness.** With `now = 2024-01-15`, a December 2023 record is
kept by the `last-month` filter. -/
theorem lastMonthFilterCorrect_check :
    let nowJan : DateTime := { year := 2024, month := 0, time := 1705320000000 }
    let recDez : FinanceRecord :=
      { id := 7, data_hora := { year := 2023, month := 11, time := 1703075400000 },
        responsavel := "Maria", categoria := "Salario", tipo := Tipo.receita,
        valor := 3500, descricao := some "Salario mensal",
        criado_em := { year := 2023, month := 11, time := 1703075400000 } }
    recDez ∈ dashboardFilteredRecords nowJan "last-month" [recDez] :=
  ((lastMonthFilterCorrect _ _ _).1 rfl).mpr (by decide)

/-- The image of a list has at most as many distinct elements as the
list. -/
theorem map_toFinset_card_le {α β : Type} [DecidableEq α] [DecidableEq β]
    (g : α → β) (m : List α) : (m.map g).toFinset.card ≤ m.toFinset.card := by
  calc (m.map g).toFinset.card ≤ (m.toFinset.image g).card := by
        refine Finset.card_le_card (fun x hx => ?_)
        rcases List.mem_map.mp (List.mem_toFinset.mp hx) with ⟨a, ha, hax⟩
        exact Finset.mem_image.mpr ⟨a, List.mem_toFinset.mpr ha, hax⟩
    _ ≤ m.toFinset.card := Finset.card_image_le

/-- **C4.** Category grouping conserves the total amount: the sum of all
group values equals the sum of the amounts of the input records, and the
number of groups is at most the number of distinct (category, kind)
pairs present in the input. -/
theorem categoryGroupingCorrect (l : List FinanceRecord) :
    ((categoryData l).map (fun g => g.value)).sum = sumValor l ∧
      (categoryData l).length ≤ ((l.map (fun r => (r.categoria, r.tipo))).toFinset).card := by
  have hupc : upsertCat = jsUpsert catKey
      (fun r => { name := r.categoria, value := 0, tipo := r.tipo })
      (fun r g => { g with value := g.value + r.valor }) := rfl
  constructor
  · have hperm : ((categoryData l).map (fun g => g.value)).sum =
        ((((categoryTotals l).map Prod.snd).map (fun g => g.value))).sum := by
      rw [categoryData, sSortKey]
      exact ((sSort_perm _ _).map _).sum_eq
    rw [hperm, List.map_map]
    have hfold := sumM_foldl catKey
      (fun r => ({ name := r.categoria, value := 0, tipo := r.tipo } : CatGroup))
      (fun r (g : CatGroup) => { g with value := g.value + r.valor })
      (fun g => g.value) (fun r g => rfl) (fun r => rfl) l [] (by simp)
    have hsum : sumM (fun g => g.value) (categoryTotals l) = sumValor l := by
      rw [categoryTotals, hupc, hfold]
      simp [sumM]
    exact hsum
  · have hlen : (categoryData l).length = (categoryTotals l).length := by
      rw [categoryData, sSortKey, (sSort_perm _ _).length_eq, List.length_map]
    have hkeys : (categoryTotals l).map Prod.fst = (l.map catKey).foldl insStep [] := by
      rw [categoryTotals, hupc, keys_foldl_jsUpsert]
      rfl
    have hnd : ((l.map catKey).foldl insStep []).Nodup :=
      nodup_foldl_insStep _ _ List.nodup_nil
    have hsub : ∀ x ∈ (l.map catKey).foldl insStep [], x ∈ l.map catKey := by
      intro x hx
      rcases mem_foldl_insStep _ _ x hx with hx0 | hx1
      · cases hx0
      · exact hx1
    have hcard : ((l.map catKey).foldl insStep []).length ≤ (l.map catKey).toFinset.card := by
      rw [← List.toFinset_card_of_nodup hnd]
      exact Finset.card_le_card (fun x hx =>
        List.mem_toFinset.mpr (hsub x (List.mem_toFinset.mp hx)))
    have hpair : (l.map catKey).toFinset.card ≤
        ((l.map (fun r => (r.categoria, r.tipo))).toFinset).card := by
      have hmm : l.map catKey =
          (l.map (fun r => (r.categoria, r.tipo))).map
            (fun p : String × Tipo => p.1 ++ "_" ++ tipoStr p.2) := by
        rw [List.map_map]
        rfl
      rw [hmm]
      exact map_toFinset_card_le _ _
    calc (categoryData l).length = (categoryTotals l).length := hlen
      _ = ((categoryTotals l).map Prod.fst).length := (List.length_map _ _).symm
      _ = ((l.map catKey).foldl insStep []).length := by rw [hkeys]
      _ ≤ (l.map catKey).toFinset.card := hcard
      _ ≤ ((l.map (fun r => (r.categoria, r.tipo))).toFinset).card := hpair

/-- **C5.** A record survives the Search/Attribute Filter exactly when
all six criteria hold: empty query or case-insensitive substring match
against description, responsible party, or category; kind, responsible
party, and category each exact unless set to the sentinel `"all"`; and
the two inclusive date bounds. -/
theorem searchAttributeFilterCorrect (c : Criteria) (records : List FinanceRecord)
    (r : FinanceRecord) :
    r ∈ recordsListFiltered c records ↔
      r ∈ records ∧
        (c.searchTerm = "" ∨ (∃ d, r.descricao = some d ∧ ciIncludes d c.searchTerm = true) ∨
          ciIncludes r.responsavel c.searchTerm = true ∨
          ciIncludes r.categoria c.searchTerm = true) ∧
        (c.filterType = "all" ∨ tipoStr r.tipo = c.filterType) ∧
        (c.filterResponsible = "all" ∨ r.responsavel = c.filterResponsible) ∧
        (c.filterCategory = "all" ∨ r.categoria = c.filterCategory) ∧
        (∀ d, c.dateFrom = some d → d.dayStart ≤ r.data_hora.time) ∧
        (∀ d, c.dateTo = some d → r.data_hora.time ≤ dayEnd d) := by
  rw [mem_recordsListFiltered, searchPred_eq_true_iff, matchesSearch_eq_true_iff,
    matchesType_eq_true_iff, matchesResponsible_eq_true_iff, matchesCategory_eq_true_iff,
    matchesDateFrom_eq_true_iff, matchesDateTo_eq_true_iff]

/-- **C5 witness.** The query `"cinema"` keeps the record whose
description contains `"Cinema"`. -/
theorem searchAttributeFilterCorrect_check :
    let c : Criteria :=
      { searchTerm := "cinema", filterType := "all", filterResponsible := "all",
        filterCategory := "all", dateFrom := none, dateTo := none }
    let recCin : FinanceRecord :=
      { id := 4, data_hora := { year := 2024, month := 5, time := 1717788600000 },
        responsavel := "Maria", categoria := "Lazer", tipo := Tipo.gasto,
        valor := 80, descricao := some "Cinema com a familia",
        criado_em := { year := 2024, month := 5, time := 1717788600000 } }
    recCin ∈ recordsListFiltered c [recCin] :=
  (searchAttributeFilterCorrect _ _ _).mpr (by
    refine ⟨List.mem_singleton.mpr rfl,
      Or.inr (Or.inl ⟨"Cinema com a familia", rfl, by decide⟩),
      Or.inl rfl, Or.inl rfl, Or.inl rfl, ?_, ?_⟩
    · intro d hd
      simp at hd
    · intro d hd
      simp at hd)

/-- **C6.** The Search/Attribute Filter's output is sorted by timestamp
descending, and the sort is stable: restricted to any fixed timestamp,
the output lists the records in the same order as the (order-preserving)
filtered input. -/
theorem searchFilterSortCorrect (c : Criteria) (records : List FinanceRecord) :
    (recordsListFiltered c records).Pairwise
        (fun a b => b.data_hora.time ≤ a.data_hora.time) ∧
      ∀ t : Int,
        (recordsListFiltered c records).filter (fun r => decide (r.data_hora.time = t)) =
          (records.filter (searchPred c)).filter (fun r => decide (r.data_hora.time = t)) := by
  constructor
  · exact sSort_pairwise (fun r => r.data_hora.time) (records.filter (searchPred c))
  · intro t
    exact sSort_filter_key (fun r => r.data_hora.time) t (records.filter (searchPred c))

/-- The per-key trace of the responsible-party accumulation continued
from an existing group adds the key's income and expense sums. -/
theorem respFold_some (k : String) (l : List FinanceRecord) (g : RespGroup) :
    l.foldl (groupStep (fun r => r.responsavel)
        (fun r => ({ name := r.responsavel, receitas := 0, gastos := 0 } : RespGroup))
        (fun r (g : RespGroup) =>
          if r.tipo = Tipo.receita then { g with receitas := g.receitas + r.valor }
          else { g with gastos := g.gastos + r.valor }) k) (some g) =
      some { name := g.name, receitas := g.receitas + sumReceitasOf k l,
             gastos := g.gastos + sumGastosOf k l } := by
  induction l generalizing g with
  | nil => simp [sumReceitasOf, sumGastosOf, sumValor]
  | cons r l ih =>
    rw [List.foldl_cons]
    by_cases hr : r.responsavel = k
    · by_cases htt : r.tipo = Tipo.receita
      · have hstep : groupStep (fun r => r.responsavel)
            (fun r => ({ name := r.responsavel, receitas := 0, gastos := 0 } : RespGroup))
            (fun r (g : RespGroup) =>
              if r.tipo = Tipo.receita then { g with receitas := g.receitas + r.valor }
              else { g with gastos := g.gastos + r.valor }) k (some g) r =
            some { g with receitas := g.receitas + r.valor } := by
          simp [groupStep, hr, htt]
        rw [hstep, ih]
        simp only [Option.some.injEq, RespGroup.mk.injEq]
        refine ⟨by trivial, ?_, ?_⟩
        · simp [sumReceitasOf, sumValor, List.filter_cons, hr, htt]
          ring
        · simp [sumGastosOf, sumValor, List.filter_cons, hr, htt]
      · have hstep : groupStep (fun r => r.responsavel)
            (fun r => ({ name := r.responsavel, receitas := 0, gastos := 0 } : RespGroup))
            (fun r (g : RespGroup) =>
              if r.tipo = Tipo.receita then { g with receitas := g.receitas + r.valor }
              else { g with gastos := g.gastos + r.valor }) k (some g) r =
            some { g with gastos := g.gastos + r.valor } := by
          simp [groupStep, hr, htt]
        have hg : r.tipo = Tipo.gasto := by cases htp : r.tipo <;> simp_all
        rw [hstep, ih]
        simp only [Option.some.injEq, RespGroup.mk.injEq]
        refine ⟨by trivial, ?_, ?_⟩
        · simp [sumReceitasOf, sumValor, List.filter_cons, hr, hg]
        · simp [sumGastosOf, sumValor, List.filter_cons, hr, hg]
          ring
    · have hstep : groupStep (fun r => r.responsavel)
          (fun r => ({ name := r.responsavel, receitas := 0, gastos := 0 } : RespGroup))
          (fun r (g : RespGroup) =>
            if r.tipo = Tipo.receita then { g with receitas := g.receitas + r.valor }
            else { g with gastos := g.gastos + r.valor }) k (some g) r = some g := by
        simp [groupStep, hr]
      rw [hstep, ih]
      simp only [Option.some.injEq, RespGroup.mk.injEq]
      refine ⟨by trivial, ?_, ?_⟩ <;>
        simp [sumReceitasOf, sumGastosOf, sumValor, List.filter_cons, hr]

/-- The per-key trace of the responsible-party accumulation started from
an absent entry either never meets the key or produces exactly the key's
two sums. -/
theorem respFold_none_cases (k : String) (l : List FinanceRecord) :
    l.foldl (groupStep (fun r => r.responsavel)
        (fun r => ({ name := r.responsavel, receitas := 0, gastos := 0 } : RespGroup))
        (fun r (g : RespGroup) =>
          if r.tipo = Tipo.receita then { g with receitas := g.receitas + r.valor }
          else { g with gastos := g.gastos + r.valor }) k) none = none ∨
      l.foldl (groupStep (fun r => r.responsavel)
        (fun r => ({ name := r.responsavel, receitas := 0, gastos := 0 } : RespGroup))
        (fun r (g : RespGroup) =>
          if r.tipo = Tipo.receita then { g with receitas := g.receitas + r.valor }
          else { g with gastos := g.gastos + r.valor }) k) none =
        some { name := k, receitas := sumReceitasOf k l, gastos := sumGastosOf k l } := by
  induction l with
  | nil => exact Or.inl rfl
  | cons r l ih =>
    rw [List.foldl_cons]
    by_cases hr : r.responsavel = k
    · right
      by_cases htt : r.tipo = Tipo.receita
      · have hstep : groupStep (fun r => r.responsavel)
            (fun r => ({ name := r.responsavel, receitas := 0, gastos := 0 } : RespGroup))
            (fun r (g : RespGroup) =>
              if r.tipo = Tipo.receita then { g with receitas := g.receitas + r.valor }
              else { g with gastos := g.gastos + r.valor }) k none r =
            some { name := r.responsavel, receitas := 0 + r.valor, gastos := 0 } := by
          simp [groupStep, hr, htt]
        rw [hstep, respFold_some]
        simp only [Option.some.injEq, RespGroup.mk.injEq]
        refine ⟨hr, ?_, ?_⟩
        · simp [sumReceitasOf, sumValor, List.filter_cons, hr, htt]
        · simp [sumGastosOf, sumValor, List.filter_cons, hr, htt]
      · have hg : r.tipo = Tipo.gasto := by cases htp : r.tipo <;> simp_all
        have hstep : groupStep (fun r => r.responsavel)
            (fun r => ({ name := r.responsavel, receitas := 0, gastos := 0 } : RespGroup))
            (fun r (g : RespGroup) =>
              if r.tipo = Tipo.receita then { g with receitas := g.receitas + r.valor }
              else { g with gastos := g.gastos + r.valor }) k none r =
            some { name := r.responsavel, receitas := 0, gastos := 0 + r.valor } := by
          simp [groupStep, hr, htt]
        rw [hstep, respFold_some]
        simp only [Option.some.injEq, RespGroup.mk.injEq]
        refine ⟨hr, ?_, ?_⟩
        · simp [sumReceitasOf, sumValor, List.filter_cons, hr, hg]
        · simp [sumGastosOf, sumValor, List.filter_cons, hr, hg]
    · have hstep : groupStep (fun r => r.responsavel)
          (fun r => ({ name := r.responsavel, receitas := 0, gastos := 0 } : RespGroup))
          (fun r (g : RespGroup) =>
            if r.tipo = Tipo.receita then { g with receitas := g.receitas + r.valor }
            else { g with gastos := g.gastos + r.valor }) k none r = none := by
        simp [groupStep, hr]
      rw [hstep]
      rcases ih with h | h
      · exact Or.inl h
      · right
        rw [h]
        simp only [Option.some.injEq, RespGroup.mk.injEq]
        refine ⟨by trivial, ?_, ?_⟩ <;>
          simp [sumReceitasOf, sumGastosOf, sumValor, List.filter_cons, hr]

/-- **C7.** Responsible-party grouping partitions by responsible party
only: the group names are the responsible-party values in
first-encountered insertion order (not sorted), and each group carries
the two separate sums of the party's income and expense amounts. -/
theorem responsiblePartyGroupingCorrect (l : List FinanceRecord) :
    (responsibleData l).map (fun g => g.name) = insDedup (l.map (fun r => r.responsavel)) ∧
      ∀ g ∈ responsibleData l,
        g.receitas = sumReceitasOf g.name l ∧ g.gastos = sumGastosOf g.name l := by
  have hupr : upsertResp = jsUpsert (fun r => r.responsavel)
      (fun r => ({ name := r.responsavel, receitas := 0, gastos := 0 } : RespGroup))
      (fun r (g : RespGroup) =>
        if r.tipo = Tipo.receita then { g with receitas := g.receitas + r.valor }
        else { g with gastos := g.gastos + r.valor }) := rfl
  have hnd : ((responsibleTotals l).map Prod.fst).Nodup := by
    rw [responsibleTotals, hupr]
    exact nodup_keys_foldl _ _ _ l [] (by simp)
  have hchar : ∀ p ∈ responsibleTotals l,
      p.2 = { name := p.1, receitas := sumReceitasOf p.1 l, gastos := sumGastosOf p.1 l } := by
    intro p hp
    have hget : getG p.1 (responsibleTotals l) = some p.2 :=
      getG_eq_of_mem_nodup _ p hnd hp
    rw [responsibleTotals, hupr, getG_foldl] at hget
    rcases respFold_none_cases p.1 l with h | h
    · rw [show getG p.1 ([] : List (String × RespGroup)) = none from rfl, h] at hget
      cases hget
    · rw [show getG p.1 ([] : List (String × RespGroup)) = none from rfl, h] at hget
      exact (Option.some.inj hget).symm
  constructor
  · have hkeys : (responsibleTotals l).map Prod.fst =
        (l.map (fun r => r.responsavel)).foldl insStep [] := by
      rw [responsibleTotals, hupr, keys_foldl_jsUpsert]
      rfl
    rw [responsibleData, List.map_map]
    have hnames : (responsibleTotals l).map ((fun g => g.name) ∘ Prod.snd) =
        (responsibleTotals l).map Prod.fst := by
      apply List.map_congr_left
      intro p hp
      show p.2.name = p.1
      rw [hchar p hp]
    rw [hnames, hkeys]
    rfl
  · intro g hg
    rcases List.mem_map.mp hg with ⟨p, hp, hgp⟩
    subst hgp
    have hc := hchar p hp
    rw [hc]
    exact ⟨rfl, rfl⟩

/-- **C7 witness.** One expense record of `"Joao"` yields the single
group `{ name := "Joao", receitas := 0, gastos := 150 }`, whose sums the
theorem certifies. -/
theorem responsiblePartyGroupingCorrect_check :
    let recJo : FinanceRecord :=
      { id := 1, data_hora := { year := 2024, month := 5, time := 1718029800000 },
        responsavel := "Joao", categoria := "Alimentacao", tipo := Tipo.gasto,
        valor := 150, descricao := some "Compras no supermercado",
        criado_em := { year := 2024, month := 5, time := 1718029800000 } }
    ({ name := "Joao", receitas := 0, gastos := 0 + 150 } : RespGroup).receitas =
        sumReceitasOf "Joao" [recJo] ∧
      ({ name := "Joao", receitas := 0, gastos := 0 + 150 } : RespGroup).gastos =
        sumGastosOf "Joao" [recJo] := by
  intro recJo
  exact (responsiblePartyGroupingCorrect [recJo]).2 _ (List.mem_singleton.mpr rfl)

/-- **C8.** A present start date excludes every record strictly earlier
than the start of that day; a present end date excludes every record
strictly later than 23:59:59 of that day; records inside the inclusive
range pass both date criteria. -/
theorem dateRangeFilterCorrect (c : Criteria) (records : List FinanceRecord)
    (r : FinanceRecord) :
    (∀ d, c.dateFrom = some d → r.data_hora.time < d.dayStart →
        r ∉ recordsListFiltered c records) ∧
      (∀ d, c.dateTo = some d → dayEnd d < r.data_hora.time →
        r ∉ recordsListFiltered c records) ∧
      ((∀ d, c.dateFrom = some d → d.dayStart ≤ r.data_hora.time) →
        (∀ d, c.dateTo = some d → r.data_hora.time ≤ dayEnd d) →
        matchesDateFrom c.dateFrom r = true ∧ matchesDateTo c.dateTo r = true) := by
  refine ⟨?_, ?_, ?_⟩
  · intro d hd hlt hmem
    have hs := ((mem_recordsListFiltered c records r).mp hmem).2
    have hdf := ((searchPred_eq_true_iff c r).mp hs).2.2.2.2.1
    have hle := (matchesDateFrom_eq_true_iff c.dateFrom r).mp hdf d hd
    exact absurd hle (not_le.mpr hlt)
  · intro d hd hlt hmem
    have hs := ((mem_recordsListFiltered c records r).mp hmem).2
    have hdt := ((searchPred_eq_true_iff c r).mp hs).2.2.2.2.2
    have hle := (matchesDateTo_eq_true_iff c.dateTo r).mp hdt d hd
    exact absurd hle (not_le.mpr hlt)
  · intro h1 h2
    exact ⟨(matchesDateFrom_eq_true_iff _ _).mpr h1, (matchesDateTo_eq_true_iff _ _).mpr h2⟩

/-- **C8 witness.** A record dated before the chosen start day is
excluded by the filter. -/
theorem dateRangeFilterCorrect_check :
    let cFrom : Criteria :=
      { searchTerm := "", filterType := "all", filterResponsible := "all",
        filterCategory := "all", dateFrom := some { dayStart := 1000 }, dateTo := none }
    let recEarly : FinanceRecord :=
      { id := 9, data_hora := { year := 1970, month := 0, time := 500 },
        responsavel := "Ana", categoria := "Lazer", tipo := Tipo.gasto,
        valor := 10, descricao := none,
        criado_em := { year := 1970, month := 0, time := 500 } }
    recEarly ∉ recordsListFiltered cFrom [recEarly] :=
  (dateRangeFilterCorrect _ _ _).1 { dayStart := 1000 } rfl (by decide)

/-- **C9.** After a successful delete of identifier `i`, the local
collection keeps exactly the records whose identifier differs from `i`;
a failed delete leaves the local collection unchanged and reports
failure. -/
theorem deleteRecordCorrect (i : Int) (records : List FinanceRecord) :
    (∀ r, r ∈ (deleteRecord RemoteResult.ok i records).1 ↔ r ∈ records ∧ r.id ≠ i) ∧
      (deleteRecord RemoteResult.ok i records).2 = true ∧
      (deleteRecord RemoteResult.err i records).1 = records ∧
      (deleteRecord RemoteResult.err i records).2 = false := by
  refine ⟨?_, rfl, rfl, rfl⟩
  intro r
  show r ∈ records.filter (fun r => decide (¬ r.id = i)) ↔ r ∈ records ∧ r.id ≠ i
  rw [List.mem_filter]
  simp

/-- **C9 witness.** Deleting identifier 2 keeps the record with
identifier 1. -/
theorem deleteRecordCorrect_check :
    let rec1 : FinanceRecord :=
      { id := 1, data_hora := { year := 2024, month := 5, time := 1718029800000 },
        responsavel := "Joao", categoria := "Alimentacao", tipo := Tipo.gasto,
        valor := 150, descricao := none,
        criado_em := { year := 2024, month := 5, time := 1718029800000 } }
    let rec2 : FinanceRecord :=
      { id := 2, data_hora := { year := 2024, month := 5, time := 1717923600000 },
        responsavel := "Maria", categoria := "Salario", tipo := Tipo.receita,
        valor := 3500, descricao := none,
        criado_em := { year := 2024, month := 5, time := 1717923600000 } }
    rec1 ∈ (deleteRecord RemoteResult.ok 2 [rec1, rec2]).1 :=
  ((deleteRecordCorrect 2 _).1 _).mpr ⟨by decide, by decide⟩

/-- **C10.** On a record without a description the filter is total and
the non-empty free-text query matches exactly when it is a
case-insensitive substring of the responsible party or the category. -/
theorem searchMissingDescricaoCorrect (c : Criteria) (records : List FinanceRecord)
    (r : FinanceRecord) (hnone : r.descricao = none) (hq : c.searchTerm ≠ "") :
    matchesSearch c.searchTerm r =
        (ciIncludes r.responsavel c.searchTerm || ciIncludes r.categoria c.searchTerm) ∧
      (r ∈ recordsListFiltered c records ↔
        r ∈ records ∧
          (ciIncludes r.responsavel c.searchTerm = true ∨
            ciIncludes r.categoria c.searchTerm = true) ∧
          matchesType c.filterType r = true ∧ matchesResponsible c.filterResponsible r = true ∧
          matchesCategory c.filterCategory r = true ∧ matchesDateFrom c.dateFrom r = true ∧
          matchesDateTo c.dateTo r = true) := by
  have hdec : decide (c.searchTerm = "") = false := by simp [hq]
  have hms : matchesSearch c.searchTerm r =
      (ciIncludes r.responsavel c.searchTerm || ciIncludes r.categoria c.searchTerm) := by
    rw [matchesSearch, hnone, hdec]
    simp
  refine ⟨hms, ?_⟩
  rw [mem_recordsListFiltered, searchPred_eq_true_iff, hms]
  simp only [Bool.or_eq_true]

/-- **C10 witness.** A record without a description matches the query
`"mar"` through its responsible party `"Maria"`. -/
theorem searchMissingDescricaoCorrect_check :
    let cQ : Criteria :=
      { searchTerm := "mar", filterType := "all", filterResponsible := "all",
        filterCategory := "all", dateFrom := none, dateTo := none }
    let recN : FinanceRecord :=
      { id := 2, data_hora := { year := 2024, month := 5, time := 1717923600000 },
        responsavel := "Maria", categoria := "Salario", tipo := Tipo.receita,
        valor := 3500, descricao := none,
        criado_em := { year := 2024, month := 5, time := 1717923600000 } }
    matchesSearch cQ.searchTerm recN =
      (ciIncludes recN.responsavel cQ.searchTerm || ciIncludes recN.categoria cQ.searchTerm) :=
  (searchMissingDescricaoCorrect _ [] _ rfl (by decide)).1

end FinApp
